import Mathlib

/-!
Shallow embedding of the blight-ticket data-preparation pipeline
(`blight_ticket.ipynb`): loading, outcome filtering, column pruning,
train/test concatenation, categorical encoding via per-column codes,
positional splitting and output formatting.

Tables are modelled as a header (list of column names) together with a
list of rows; every cell is an optional value (`none` models a missing
value / NaN), and a value is either a text value or a rational number
(all numeric fields in the data are finite decimals).
-/

namespace Blight

/-- A cell value: free text or a (decimal) number. -/
inductive Val where
  | str (s : String)
  | num (q : Rat)
deriving DecidableEq

/-- A cell is an optional value; `none` models a missing value (NaN). -/
abbrev Cell := Option Val

/-- A row is the list of its cells, aligned with the table's columns. -/
abbrev Row := List Cell

/-- An in-memory table: column names plus rows. -/
structure Table where
  cols : List String
  rows : List Row
deriving DecidableEq

/-- A table with an explicit row index (after `set_index`). -/
structure ITable where
  index : List Cell
  cols : List String
  rows : List Row
deriving DecidableEq

/-- A table is well formed when every row has one cell per column. -/
def Table.WF (t : Table) : Prop := ∀ r ∈ t.rows, r.length = t.cols.length

/-- Position of the first occurrence of `a` in a list (column lookup). -/
def findPos {α : Type} [DecidableEq α] (a : α) : List α → Option Nat
  | [] => none
  | b :: bs => if a = b then some 0 else (findPos a bs).map (· + 1)

/-- Insertion into a list sorted by the boolean relation `le`. -/
def insertLe {α : Type} (le : α → α → Bool) (a : α) : List α → List α
  | [] => [a]
  | b :: bs => if le a b then a :: b :: bs else b :: insertLe le a bs

/-- Insertion sort by the boolean relation `le` (used for the
alphabetical category order and the sorted column union). -/
def sortLe {α : Type} (le : α → α → Bool) : List α → List α
  | [] => []
  | a :: as => insertLe le a (sortLe le as)

/-- Lexicographic comparison of character lists. -/
def charsLe : List Char → List Char → Bool
  | [], _ => true
  | _ :: _, [] => false
  | a :: as, b :: bs => if a = b then charsLe as bs else decide (a < b)

/-- Alphabetical order on column names / text values. -/
def strLe (a b : String) : Bool := charsLe a.data b.data

/-- The distinct elements of a list (each duplicated element kept once). -/
def distinct {α : Type} [DecidableEq α] : List α → List α
  | [] => []
  | a :: as => if a ∈ as then distinct as else a :: distinct as

/-- Deterministic order on values: numbers before text, each by its
natural order (the categorical columns of this dataset are all text). -/
def valLe : Val → Val → Bool
  | Val.num a, Val.num b => decide (a ≤ b)
  | Val.num _, Val.str _ => true
  | Val.str _, Val.num _ => false
  | Val.str a, Val.str b => strLe a b

/-- Column `c` of a table, as the list of its cells in row order
(`t[c]`); empty when the column is absent. -/
def getCol (t : Table) (c : String) : List Cell :=
  match findPos c t.cols with
  | some j => t.rows.map (fun r => r.getD j none)
  | none => []

/-- The outcome test of the training filter:
`(train[compliance] == 1.0) | (train[compliance] == 0.0)`. -/
def definedOutcome (cell : Cell) : Bool :=
  decide (cell = some (Val.num 1)) || decide (cell = some (Val.num 0))

/-- `train = train[(train[compliance] == 1.0) | (train[compliance] == 0.0)]`:
keep only rows whose outcome equals one of the two defined classes.
Selecting an absent column is a lookup error, as in the source. -/
def filterCompliance (t : Table) : Except String Table :=
  match findPos "compliance" t.cols with
  | none => Except.error "KeyError: compliance"
  | some j =>
      Except.ok ⟨t.cols, t.rows.filter (fun r => definedOutcome (r.getD j none))⟩

/-- Leakage columns dropped from the training table only. -/
def train_drop : List String :=
  ["payment_amount", "payment_date", "payment_status", "balance_due",
   "collection_status", "grafitti_status", "compliance_detail", "compliance"]

/-- Columns dropped from the unified table (uninformative / address noise). -/
def common_drop : List String :=
  ["clean_up_cost", "city", "grafitti_status", "discount_amount",
   "violation_street_number", "violation_description", "ticket_issued_date",
   "hearing_date", "state", "zip_code", "non_us_str_code", "country",
   "violator_name", "violator_name", "violation_zip_code",
   "mailing_address_str_number", "mailing_address_str_name"]

/-- The categorical columns converted to integer codes. -/
def cat_columns : List String :=
  ["agency_name", "inspector_name", "violation_street_name",
   "violation_code", "disposition"]

/-- Remove from a row the cells of the named columns (the row is read
against the header `cols`). -/
def dropRow (cols names : List String) (r : Row) : Row :=
  (cols.zip r).filterMap
    (fun p => if decide (p.1 ∈ names) then none else some p.2)

/-- `t.drop(names, axis=1)`: fails when a named column is absent
(KeyError), otherwise removes the named columns from header and rows. -/
def Table.dropCols (t : Table) (names : List String) : Except String Table :=
  if _h : ∀ n ∈ names, n ∈ t.cols then
    Except.ok ⟨t.cols.filter (fun c => !decide (c ∈ names)),
               t.rows.map (dropRow t.cols names)⟩
  else Except.error "KeyError"

/-- Column union of the two concatenated tables; `pd.concat` sorted the
union of the headers alphabetically (observed in the notebook output). -/
def unionCols (c1 c2 : List String) : List String :=
  sortLe strLe (distinct (c1 ++ c2))

/-- Re-read a row (laid out along `cols`) against the header `cs`;
columns absent from `cols` become missing values. -/
def alignRow (cs cols : List String) (r : Row) : Row :=
  cs.map (fun c =>
    match findPos c cols with
    | some j => r.getD j none
    | none => none)

/-- `df = pd.concat([train, test])`: the unified table holds the aligned
training rows first, then the aligned evaluation rows, in order. -/
def concatTables (a b : Table) : Table :=
  let cs := unionCols a.cols b.cols
  ⟨cs, a.rows.map (alignRow cs a.cols) ++ b.rows.map (alignRow cs b.cols)⟩

/-- `df = df.set_index(ticket_id)`: move the named column to the index. -/
def Table.setIndex (t : Table) (c : String) : Except String ITable :=
  match findPos c t.cols with
  | none => Except.error "KeyError"
  | some _ =>
      Except.ok ⟨getCol t c,
                 t.cols.filter (fun x => !decide (x = c)),
                 t.rows.map (dropRow t.cols [c])⟩

/-- The vocabulary of a column: its distinct present values in sorted
order (`astype(category)` sorts the distinct values). -/
def buildVocab (col : List Cell) : List Val :=
  sortLe valLe (distinct (col.filterMap id))

/-- `cat.codes` for one cell: the position of its value in the
vocabulary; a missing value is coded `-1`. -/
def codeOf (vocab : List Val) (cell : Cell) : Cell :=
  match cell with
  | none => some (Val.num (-1))
  | some v =>
      match findPos v vocab with
      | some i => some (Val.num i)
      | none => some (Val.num (-1))

/-- Encode one column: replace every cell by its code under the
column's own vocabulary. -/
def encodeColumn (col : List Cell) : List Cell :=
  col.map (codeOf (buildVocab col))

/-- Column `c` of an indexed table. -/
def getColI (t : ITable) (c : String) : List Cell :=
  match findPos c t.cols with
  | some j => t.rows.map (fun r => r.getD j none)
  | none => []

/-- Map over a list with the position of each element (start at `k`). -/
def mapWithIdx {α β : Type} (f : Nat → α → β) : Nat → List α → List β
  | _, [] => []
  | k, a :: as => f k a :: mapWithIdx f (k + 1) as

/-- Encode the cell at column position `j` of the unified table: cells
of a categorical column are replaced by their code under that column's
vocabulary (built over the whole unified column); other cells are kept. -/
def encodeCell (t : ITable) (cats : List String) (j : Nat) (cell : Cell) : Cell :=
  if decide (t.cols.getD j "" ∈ cats) then
    codeOf (buildVocab (getColI t (t.cols.getD j ""))) cell
  else cell

/-- Encode one row of the unified table, cell by cell. -/
def encodeRowF (t : ITable) (cats : List String) (r : Row) : Row :=
  mapWithIdx (encodeCell t cats) 0 r

/-- `for col in cat_columns: df[col] = df[col].astype(category)` followed
by `df[cat_columns] = df[cat_columns].apply(lambda x: x.cat.codes)`:
every categorical column is replaced by its codes, each column encoded
against its own vocabulary, rows kept in place. -/
def encodeTable (cats : List String) (t : ITable) : ITable :=
  ⟨t.index, t.cols, t.rows.map (encodeRowF t cats)⟩

/-- `df.iloc[0:n,:]` on an indexed table. -/
def ilocTake (n : Nat) (t : ITable) : ITable :=
  ⟨t.index.take n, t.cols, t.rows.take n⟩

/-- `df.iloc[n:,:]` on an indexed table. -/
def ilocDrop (n : Nat) (t : ITable) : ITable :=
  ⟨t.index.drop n, t.cols, t.rows.drop n⟩

/-- Concatenation of two indexed tables over the same header
(used to state the re-slicing round trip). -/
def concatI (a b : ITable) : ITable :=
  ⟨a.index ++ b.index, a.cols, a.rows ++ b.rows⟩

/-- The unified, pruned, indexed table built by the notebook before
encoding: filter the training table, drop its leakage columns,
concatenate with the evaluation table, drop the common columns, and
move `ticket_id` to the index. -/
def unifiedIndexed (tr te : Table) : Except String ITable := do
  let tr1 ← filterCompliance tr
  let tr2 ← tr1.dropCols train_drop
  let df1 ← (concatTables tr2 te).dropCols common_drop
  df1.setIndex "ticket_id"

/-- The three artefacts the notebook feeds to the model selector. -/
structure PipeOut where
  X_train : ITable
  y_train : List Cell
  X_test : ITable
deriving DecidableEq

/-- The whole data-preparation pipeline of the notebook: labels are the
compliance column of the filtered training table, the unified table is
encoded, and `X_train`/`X_test` are its first `len(train)` rows and the
remainder (`df.iloc[0:len(train),:]`, `df.iloc[len(train):,:]`). -/
def pipeline (tr te : Table) : Except String PipeOut := do
  let tr1 ← filterCompliance tr
  let dfi ← unifiedIndexed tr te
  let enc := encodeTable cat_columns dfi
  let n := tr1.rows.length
  Except.ok ⟨ilocTake n enc, getCol tr1 "compliance", ilocDrop n enc⟩

/-- `ans = pd.Series(result[:,1], index=X_test.index)`: pair each
positive-class probability with the evaluation identifier at the same
position. -/
def formatOutput (idx : List Cell) (probs : List Rat) : List (Cell × Rat) :=
  idx.zip probs

/-- A small concrete training table: four rows, of which two have a
defined outcome (1.0 and 0.0), one a missing outcome and one an
out-of-class outcome. -/
def trW : Table :=
  ⟨["ticket_id", "agency_name"] ++ train_drop,
   [[some (Val.num 1), some (Val.str "B"), none, none, none, none, none,
     none, none, some (Val.num 1)],
    [some (Val.num 2), some (Val.str "A"), none, none, none, none, none,
     none, none, none],
    [some (Val.num 3), some (Val.str "A"), none, none, none, none, none,
     none, none, some (Val.num 0)],
    [some (Val.num 4), some (Val.str "B"), none, none, none, none, none,
     none, none, some (Val.num 5)]]⟩

/-- A small concrete evaluation table with two rows. -/
def teW : Table :=
  ⟨["ticket_id"] ++ distinct common_drop ++ ["agency_name"],
   [(some (Val.num 9) :: List.replicate 16 none) ++ [some (Val.str "C")],
    (some (Val.num 8) :: List.replicate 16 none) ++ [some (Val.str "A")]]⟩

/-- The filtered training table of `trW` (the two defined-outcome rows). -/
def tr1W : Table :=
  ⟨["ticket_id", "agency_name"] ++ train_drop,
   [[some (Val.num 1), some (Val.str "B"), none, none, none, none, none,
     none, none, some (Val.num 1)],
    [some (Val.num 3), some (Val.str "A"), none, none, none, none, none,
     none, none, some (Val.num 0)]]⟩

/-- `tr1W` with its leakage columns dropped. -/
def tr2W : Table :=
  ⟨["ticket_id", "agency_name"],
   [[some (Val.num 1), some (Val.str "B")],
    [some (Val.num 3), some (Val.str "A")]]⟩

/-- The pruned unified table of `trW` and `teW`. -/
def df1W : Table :=
  ⟨["agency_name", "ticket_id"],
   [[some (Val.str "B"), some (Val.num 1)],
    [some (Val.str "A"), some (Val.num 3)],
    [some (Val.str "C"), some (Val.num 9)],
    [some (Val.str "A"), some (Val.num 8)]]⟩

/-- The pruned unified table, indexed by ticket identifier. -/
def dfiW : ITable :=
  ⟨[some (Val.num 1), some (Val.num 3), some (Val.num 9), some (Val.num 8)],
   ["agency_name"],
   [[some (Val.str "B")], [some (Val.str "A")],
    [some (Val.str "C")], [some (Val.str "A")]]⟩

/-- The pipeline output on `trW` and `teW`. -/
def outW : PipeOut :=
  ⟨⟨[some (Val.num 1), some (Val.num 3)], ["agency_name"],
    [[some (Val.num 1)], [some (Val.num 0)]]⟩,
   [some (Val.num 1), some (Val.num 0)],
   ⟨[some (Val.num 9), some (Val.num 8)], ["agency_name"],
    [[some (Val.num 2)], [some (Val.num 0)]]⟩⟩

theorem findPos_get? {α : Type} [DecidableEq α] {a : α} :
    ∀ {l : List α} {i : Nat}, findPos a l = some i → l.get? i = some a := by
  intro l
  induction l with
  | nil => intro i h; simp [findPos] at h
  | cons b bs ih =>
    intro i h
    by_cases hab : a = b
    · simp [findPos, hab] at h
      subst h; simp [hab]
    · simp [findPos, hab] at h
      cases hfp : findPos a bs with
      | none => rw [hfp] at h; simp at h
      | some j =>
        rw [hfp] at h
        simp at h
        subst h
        simpa using ih hfp

theorem findPos_isSome_of_mem {α : Type} [DecidableEq α] {a : α} :
    ∀ {l : List α}, a ∈ l → ∃ i, findPos a l = some i := by
  intro l
  induction l with
  | nil => intro h; simp at h
  | cons b bs ih =>
    intro h
    by_cases hab : a = b
    · exact ⟨0, by simp [findPos, hab]⟩
    · have hmem : a ∈ bs := by
        rcases List.mem_cons.mp h with h1 | h1
        · exact absurd h1 hab
        · exact h1
      rcases ih hmem with ⟨i, hi⟩
      exact ⟨i + 1, by simp [findPos, hab, hi]⟩

theorem findPos_of_get?_nodup {α : Type} [DecidableEq α] :
    ∀ {l : List α} {i : Nat} {a : α}, l.Nodup → l.get? i = some a →
      findPos a l = some i := by
  intro l
  induction l with
  | nil => intro i a _ h; simp at h
  | cons b bs ih =>
    intro i a hnd h
    cases i with
    | zero =>
      simp at h
      subst h
      simp [findPos]
    | succ j =>
      simp at h
      have hmem : a ∈ bs := List.getElem?_mem h
      have hab : a ≠ b := by
        intro hc
        exact (List.nodup_cons.mp hnd).1 (hc ▸ hmem)
      have hrec := ih (List.nodup_cons.mp hnd).2 (by simpa using h)
      simp [findPos, hab, hrec]

theorem findPos_lt_length {α : Type} [DecidableEq α] {a : α} {l : List α}
    {i : Nat} (h : findPos a l = some i) : i < l.length :=
  List.get?_eq_some.mp (findPos_get? h) |>.1

theorem insertLe_perm {α : Type} (le : α → α → Bool) (a : α) :
    ∀ l : List α, List.Perm (insertLe le a l) (a :: l) := by
  intro l
  induction l with
  | nil => simp [insertLe]
  | cons b bs ih =>
    by_cases h : le a b
    · simp [insertLe, h]
    · simp only [insertLe, h, if_false, Bool.false_eq_true]
      exact ((List.Perm.cons b ih).trans (List.Perm.swap a b bs))

theorem sortLe_perm {α : Type} (le : α → α → Bool) :
    ∀ l : List α, List.Perm (sortLe le l) l := by
  intro l
  induction l with
  | nil => simp [sortLe]
  | cons a as ih =>
    exact (insertLe_perm le a (sortLe le as)).trans (List.Perm.cons a ih)

theorem mem_sortLe {α : Type} (le : α → α → Bool) (a : α) (l : List α) :
    a ∈ sortLe le l ↔ a ∈ l := (sortLe_perm le l).mem_iff

theorem nodup_sortLe {α : Type} (le : α → α → Bool) {l : List α}
    (h : l.Nodup) : (sortLe le l).Nodup := (sortLe_perm le l).nodup_iff.mpr h

theorem mem_distinct {α : Type} [DecidableEq α] {x : α} :
    ∀ {l : List α}, x ∈ distinct l ↔ x ∈ l := by
  intro l
  induction l with
  | nil => simp [distinct]
  | cons a as ih =>
    by_cases h : a ∈ as
    · simp only [distinct, h, if_true, ih, List.mem_cons]
      constructor
      · exact Or.inr
      · rintro (rfl | hx)
        · exact h
        · exact hx
    · simp [distinct, h, ih]

theorem nodup_distinct {α : Type} [DecidableEq α] :
    ∀ (l : List α), (distinct l).Nodup := by
  intro l
  induction l with
  | nil => simp [distinct]
  | cons a as ih =>
    by_cases h : a ∈ as
    · simpa [distinct, h] using ih
    · simp only [distinct, h, if_false, List.nodup_cons]
      exact ⟨fun hc => h (mem_distinct.mp hc), ih⟩

theorem mapWithIdx_get? {α β : Type} (f : Nat → α → β) :
    ∀ (l : List α) (k j : Nat),
      (mapWithIdx f k l).get? j = (l.get? j).map (f (k + j)) := by
  intro l
  induction l with
  | nil => intro k j; simp [mapWithIdx]
  | cons a as ih =>
    intro k j
    cases j with
    | zero => simp [mapWithIdx]
    | succ j =>
      have hkj : k + 1 + j = k + (j + 1) := by omega
      simp only [mapWithIdx, List.get?_cons_succ, ih (k + 1) j, hkj]

theorem dropRow_length (names : List String) :
    ∀ (cols : List String) (r : Row), r.length = cols.length →
      (dropRow cols names r).length
        = (cols.filter (fun c => !decide (c ∈ names))).length := by
  intro cols
  induction cols with
  | nil =>
    intro r h
    cases r with
    | nil => rfl
    | cons x xs => simp at h
  | cons c cs ih =>
    intro r h
    cases r with
    | nil => simp at h
    | cons x xs =>
      have hx : xs.length = cs.length := by simpa using h
      by_cases hc : c ∈ names
      · simp [dropRow, List.filter, hc, ih xs hx, dropRow] at *
        simpa [dropRow, hc] using ih xs hx
      · simpa [dropRow, List.filter, hc] using ih xs hx

/-- C3: filtering the training table keeps exactly the rows whose
outcome equals one of the two defined classes (compliant `1.0` or
non-compliant `0.0`); rows with an undefined or unrecognized outcome are
removed without error, and the resulting row count equals the count of
rows with a defined outcome. -/
theorem filter_defined_outcome (t : Table) (j : Nat)
    (hj : findPos "compliance" t.cols = some j) :
    ∃ t2, filterCompliance t = Except.ok t2
      ∧ t2.cols = t.cols
      ∧ t2.rows = t.rows.filter (fun r => definedOutcome (r.getD j none))
      ∧ t2.rows.length = t.rows.countP (fun r => definedOutcome (r.getD j none))
      ∧ (∀ r ∈ t2.rows, r ∈ t.rows ∧ definedOutcome (r.getD j none) = true)
      ∧ (∀ cell : Cell, definedOutcome cell = true ↔
            (cell = some (Val.num 1) ∨ cell = some (Val.num 0))) := by
  refine ⟨⟨t.cols, t.rows.filter (fun r => definedOutcome (r.getD j none))⟩,
    ?_, rfl, rfl, ?_, ?_, ?_⟩
  · simp [filterCompliance, hj]
  · exact (List.countP_eq_length_filter ..).symm
  · intro r hr
    exact ⟨(List.mem_filter.mp hr).1, (List.mem_filter.mp hr).2⟩
  · intro cell
    simp [definedOutcome]

/-- Witness for C3: the end-to-end scenario's training outcomes — rows
with outcome 1.0 or 0.0 are kept, the null-outcome and out-of-class
rows are removed, and the row count equals the defined-outcome count. -/
theorem filter_defined_outcome_witness :
    ∃ t2, filterCompliance
        ⟨["compliance"],
         [[some (Val.num 1)], [none], [some (Val.num 0)], [some (Val.num 7)]]⟩
        = Except.ok t2
      ∧ t2.cols = ["compliance"]
      ∧ t2.rows = [[some (Val.num 1)], [none], [some (Val.num 0)],
          [some (Val.num 7)]].filter (fun r => definedOutcome (r.getD 0 none))
      ∧ t2.rows.length = [[some (Val.num 1)], [none], [some (Val.num 0)],
          [some (Val.num 7)]].countP (fun r => definedOutcome (r.getD 0 none))
      ∧ (∀ r ∈ t2.rows,
          r ∈ [[some (Val.num 1)], [none], [some (Val.num 0)],
               [some (Val.num 7)]]
          ∧ definedOutcome (r.getD 0 none) = true)
      ∧ (∀ cell : Cell, definedOutcome cell = true ↔
            (cell = some (Val.num 1) ∨ cell = some (Val.num 0))) :=
  filter_defined_outcome
    ⟨["compliance"],
     [[some (Val.num 1)], [none], [some (Val.num 0)], [some (Val.num 7)]]⟩
    0 rfl

/-- C9: pruning named columns fails (schema mismatch) exactly when a
named column is absent; when all are present it succeeds and the result
holds exactly the remaining columns, with every row still aligned. -/
theorem prune_schema (t : Table) (names : List String) :
    ((∀ n ∈ names, n ∈ t.cols) →
       t.dropCols names = Except.ok
         ⟨t.cols.filter (fun c => !decide (c ∈ names)),
          t.rows.map (dropRow t.cols names)⟩)
  ∧ ((∃ n ∈ names, n ∉ t.cols) → t.dropCols names = Except.error "KeyError")
  ∧ (∀ t2, t.dropCols names = Except.ok t2 →
       t2.cols = t.cols.filter (fun c => !decide (c ∈ names))
       ∧ (∀ c, c ∈ t2.cols ↔ (c ∈ t.cols ∧ c ∉ names))
       ∧ (t.WF → t2.WF)) := by
  refine ⟨?_, ?_, ?_⟩
  · intro h
    simp only [Table.dropCols, dif_pos h]
  · intro h
    have hna : ¬ ∀ n ∈ names, n ∈ t.cols := by
      rcases h with ⟨n, hn, hnc⟩
      intro hall
      exact hnc (hall n hn)
    simp [Table.dropCols, hna]
  · intro t2 h
    by_cases hall : ∀ n ∈ names, n ∈ t.cols
    · simp only [Table.dropCols, dif_pos hall, Except.ok.injEq] at h
      subst h
      refine ⟨rfl, ?_, ?_⟩
      · intro c
        simp [List.mem_filter]
      · intro hwf r hr
        simp only [List.mem_map] at hr
        rcases hr with ⟨r0, hr0, rfl⟩
        exact dropRow_length names t.cols r0 (hwf r0 hr0)
    · simp [Table.dropCols, hall] at h

/-- Witness for C9: dropping the leakage columns succeeds on a header
containing them and fails on a header missing one of them. -/
theorem prune_schema_witness :
    (Table.dropCols ⟨["a", "b"], [[none, some (Val.num 2)]]⟩ ["b"]
      = Except.ok ⟨["a", "b"].filter (fun c => !decide (c ∈ ["b"])),
          [[none, some (Val.num 2)]].map (dropRow ["a", "b"] ["b"])⟩)
    ∧ (Table.dropCols ⟨["a"], []⟩ ["b"] = Except.error "KeyError") :=
  ⟨(prune_schema ⟨["a", "b"], [[none, some (Val.num 2)]]⟩ ["b"]).1
      (by decide),
   (prune_schema ⟨["a"], []⟩ ["b"]).2.1 ⟨"b", by decide, by decide⟩⟩

theorem mem_buildVocab {v : Val} {col : List Cell} :
    v ∈ buildVocab col ↔ some v ∈ col := by
  unfold buildVocab
  rw [mem_sortLe, mem_distinct]
  simp [List.mem_filterMap]

theorem nodup_buildVocab (col : List Cell) : (buildVocab col).Nodup :=
  nodup_sortLe valLe (nodup_distinct _)

/-- C4: for each encoded column the encoder enumerates the distinct
values in a stable (sorted) order, assigns each distinct value a unique
code starting at 0, and replaces every occurrence by its code; encoding
the column `A, B, A` yields the codes `0, 1, 0`. -/
theorem encoder_enumeration :
    (∀ col : List Cell,
        (buildVocab col).Nodup
      ∧ (∀ v : Val, v ∈ buildVocab col ↔ some v ∈ col)
      ∧ encodeColumn col = col.map (codeOf (buildVocab col))
      ∧ (∀ v : Val, some v ∈ col →
          ∃ i : Nat, findPos v (buildVocab col) = some i
            ∧ i < (buildVocab col).length
            ∧ codeOf (buildVocab col) (some v) = some (Val.num i))
      ∧ (∀ (v w : Val) (i : Nat), findPos v (buildVocab col) = some i →
          findPos w (buildVocab col) = some i → v = w))
  ∧ encodeColumn [some (Val.str "A"), some (Val.str "B"), some (Val.str "A")]
      = [some (Val.num 0), some (Val.num 1), some (Val.num 0)] := by
  refine ⟨fun col => ⟨nodup_buildVocab col, fun _ => mem_buildVocab,
    rfl, ?_, ?_⟩, by decide⟩
  · intro v hv
    rcases findPos_isSome_of_mem (mem_buildVocab.mpr hv) with ⟨i, hi⟩
    exact ⟨i, hi, findPos_lt_length hi, by simp [codeOf, hi]⟩
  · intro v w i hv hw
    have h1 := findPos_get? hv
    have h2 := findPos_get? hw
    rw [h1] at h2
    exact Option.some.inj h2

/-- Witness for C4: in the column `A, B`, the value `B` receives a
definite code below the vocabulary size. -/
theorem encoder_enumeration_witness :
    ∃ i : Nat,
      findPos (Val.str "B")
        (buildVocab [some (Val.str "A"), some (Val.str "B")]) = some i
      ∧ i < (buildVocab [some (Val.str "A"), some (Val.str "B")]).length
      ∧ codeOf (buildVocab [some (Val.str "A"), some (Val.str "B")])
          (some (Val.str "B")) = some (Val.num i) :=
  (encoder_enumeration.1 [some (Val.str "A"), some (Val.str "B")]).2.2.2.1
    (Val.str "B") (by decide)

/-- C5: per column, the map from distinct values to codes is a
bijection: every vocabulary value has a code that decodes back to it,
every decoded code re-encodes to itself, and every code below the
vocabulary size decodes to some vocabulary value. -/
theorem encoder_bijection (col : List Cell) :
    (∀ v : Val, v ∈ buildVocab col →
        ∃ i : Nat, findPos v (buildVocab col) = some i
          ∧ (buildVocab col).get? i = some v)
  ∧ (∀ (i : Nat) (v : Val), (buildVocab col).get? i = some v →
        findPos v (buildVocab col) = some i)
  ∧ (∀ i : Nat, i < (buildVocab col).length →
        ∃ v : Val, (buildVocab col).get? i = some v
          ∧ findPos v (buildVocab col) = some i) := by
  refine ⟨?_, ?_, ?_⟩
  · intro v hv
    rcases findPos_isSome_of_mem hv with ⟨i, hi⟩
    exact ⟨i, hi, findPos_get? hi⟩
  · intro i v hget
    exact findPos_of_get?_nodup (nodup_buildVocab col) hget
  · intro i hi
    have hget := List.get?_eq_get hi
    exact ⟨(buildVocab col).get ⟨i, hi⟩, hget,
      findPos_of_get?_nodup (nodup_buildVocab col) hget⟩

/-- Witness for C5: decoding the code of `A` in the column `B, A`
recovers `A`. -/
theorem encoder_bijection_witness :
    ∃ i : Nat,
      findPos (Val.str "A")
        (buildVocab [some (Val.str "B"), some (Val.str "A")]) = some i
      ∧ (buildVocab [some (Val.str "B"), some (Val.str "A")]).get? i
          = some (Val.str "A") :=
  (encoder_bijection [some (Val.str "B"), some (Val.str "A")]).1
    (Val.str "A") (by decide)

/-- C7: a missing value in an encoded categorical column is coded `-1`,
while every present value receives a non-negative code. -/
theorem missing_value_code :
    (∀ vocab : List Val, codeOf vocab none = some (Val.num (-1)))
  ∧ (∀ (col : List Cell) (k : Nat), col.get? k = some none →
        (encodeColumn col).get? k = some (some (Val.num (-1))))
  ∧ (∀ (col : List Cell) (k : Nat) (v : Val),
        col.get? k = some (some v) →
        ∃ i : Nat, (encodeColumn col).get? k = some (some (Val.num i))
          ∧ 0 ≤ (i : Rat)) := by
  refine ⟨fun _ => rfl, ?_, ?_⟩
  · intro col k h
    rw [encodeColumn, List.get?_map, h]
    rfl
  · intro col k v h
    have hv : some v ∈ col := by
      have := List.getElem?_mem (List.get?_eq_getElem? .. ▸ h)
      exact this
    rcases findPos_isSome_of_mem (mem_buildVocab.mpr hv) with ⟨i, hi⟩
    refine ⟨i, ?_, by positivity⟩
    rw [encodeColumn, List.get?_map, h]
    simp [codeOf, hi]

/-- Witness for C7: in the column `A, NaN`, the missing cell is coded
`-1` and the present cell receives a non-negative code. -/
theorem missing_value_code_witness :
    ((encodeColumn [some (Val.str "A"), none]).get? 1
        = some (some (Val.num (-1))))
    ∧ (∃ i : Nat,
        (encodeColumn [some (Val.str "A"), none]).get? 0
          = some (some (Val.num i)) ∧ 0 ≤ (i : Rat)) :=
  ⟨missing_value_code.2.1 [some (Val.str "A"), none] 1 rfl,
   missing_value_code.2.2 [some (Val.str "A"), none] 0 (Val.str "A") rfl⟩

/-- C6: the formatted output has one (identifier, probability) pair per
evaluation row, and the identifier at each position is the identifier of
the evaluation-features row at the same position. -/
theorem predictor_output_order (xt : ITable) (probs : List Rat)
    (hlen : probs.length = xt.index.length)
    (hix : xt.index.length = xt.rows.length) :
    (formatOutput xt.index probs).length = xt.rows.length
    ∧ (formatOutput xt.index probs).map Prod.fst = xt.index
    ∧ (∀ i : Nat, ((formatOutput xt.index probs).get? i).map Prod.fst
        = xt.index.get? i) := by
  have hmap : (formatOutput xt.index probs).map Prod.fst = xt.index :=
    List.map_fst_zip xt.index probs (by omega)
  refine ⟨?_, hmap, ?_⟩
  · rw [formatOutput, List.length_zip]
    omega
  · intro i
    calc ((formatOutput xt.index probs).get? i).map Prod.fst
        = ((formatOutput xt.index probs).map Prod.fst).get? i :=
          (List.get?_map ..).symm
      _ = xt.index.get? i := by rw [hmap]

/-- Witness for C6: a 3-row evaluation table with identifiers
285362, 285361, 285338 keeps that exact identifier order in the output. -/
theorem predictor_output_order_witness :
    (formatOutput
        [some (Val.num 285362), some (Val.num 285361), some (Val.num 285338)]
        [1/2, 0, 1]).map Prod.fst
      = [some (Val.num 285362), some (Val.num 285361), some (Val.num 285338)] :=
  (predictor_output_order
    ⟨[some (Val.num 285362), some (Val.num 285361), some (Val.num 285338)],
     ["fine_amount"], [[], [], []]⟩
    [1/2, 0, 1] rfl rfl).2.1

/-- C2: for a categorical column of the unified table, encoding uses one
vocabulary built over the whole column (training and evaluation values
together), so every occurrence of the same value receives the same code;
the encoded column depends only on that column's own cells. -/
theorem shared_vocabulary (t : ITable) (cats : List String) (c : String)
    (j : Nat) (hwf : ∀ r ∈ t.rows, r.length = t.cols.length)
    (hc : c ∈ cats) (hj : findPos c t.cols = some j) :
    getColI (encodeTable cats t) c
      = (getColI t c).map (codeOf (buildVocab (getColI t c)))
    ∧ (∀ (i k : Nat) (v : Val),
        (getColI t c).get? i = some (some v) →
        (getColI t c).get? k = some (some v) →
        (getColI (encodeTable cats t) c).get? i
          = (getColI (encodeTable cats t) c).get? k) := by
  have hjl : j < t.cols.length := findPos_lt_length hj
  have hcsome : t.cols[j]? = some c := by
    rw [← List.get?_eq_getElem?]
    exact findPos_get? hj
  have hcname : t.cols[j]?.getD "" = c := by
    rw [hcsome]
    rfl
  have hmain : getColI (encodeTable cats t) c
      = (getColI t c).map (codeOf (buildVocab (getColI t c))) := by
    have h1 : getColI (encodeTable cats t) c
        = t.rows.map (fun r => (encodeRowF t cats r).getD j none) := by
      simp [getColI, encodeTable, hj, List.map_map]
    have h2 : getColI t c = t.rows.map (fun r => r.getD j none) := by
      simp [getColI, hj]
    rw [h1]
    nth_rewrite 2 [h2]
    rw [List.map_map]
    apply List.map_congr_left
    intro r hr
    have hjr : j < r.length := by
      rw [hwf r hr]
      exact hjl
    have hget : r.get? j = some (r.get ⟨j, hjr⟩) := List.get?_eq_get hjr
    have hgetD : r.getD j none = r.get ⟨j, hjr⟩ := by
      rw [List.getD_eq_get?, hget]
      rfl
    have hrow : (encodeRowF t cats r).getD j none
        = encodeCell t cats j (r.get ⟨j, hjr⟩) := by
      rw [List.getD_eq_get?, encodeRowF, mapWithIdx_get?, Nat.zero_add, hget]
      rfl
    have hcell : encodeCell t cats j (r.get ⟨j, hjr⟩)
        = codeOf (buildVocab (getColI t c)) (r.get ⟨j, hjr⟩) := by
      simp [encodeCell, List.getD_eq_getElem?_getD, hcname, hc]
    simp only [Function.comp_apply]
    rw [hrow, hcell, hgetD]
  refine ⟨hmain, ?_⟩
  intro i k v hi hk
  rw [hmain, List.get?_map, List.get?_map, hi, hk]

/-- Witness for C2: in a unified one-column table holding the values
`A, B, A` (training part then evaluation part), both occurrences of `A`
receive the same code. -/
theorem shared_vocabulary_witness :
    getColI (encodeTable cat_columns
        ⟨[none, none, none], ["agency_name"],
         [[some (Val.str "A")], [some (Val.str "B")], [some (Val.str "A")]]⟩)
      "agency_name"
      = (getColI
          ⟨[none, none, none], ["agency_name"],
           [[some (Val.str "A")], [some (Val.str "B")], [some (Val.str "A")]]⟩
          "agency_name").map
        (codeOf (buildVocab (getColI
          ⟨[none, none, none], ["agency_name"],
           [[some (Val.str "A")], [some (Val.str "B")], [some (Val.str "A")]]⟩
          "agency_name"))) :=
  (shared_vocabulary
    ⟨[none, none, none], ["agency_name"],
     [[some (Val.str "A")], [some (Val.str "B")], [some (Val.str "A")]]⟩
    cat_columns "agency_name" 0 (by decide) (by decide) rfl).1

/-- C1: the unified table is the training rows followed by the
evaluation rows in that exact order; encoding changes neither the row
order (each row is transformed in place) nor the row count nor the
index; slicing the encoded unified table at the original training row
count `n` yields exactly the encoded first partition and the encoded
second partition, and concatenating the two slices and re-slicing at `n`
recovers the identical tables. -/
theorem unify_encode_split (a b : Table) (u : ITable) (cats : List String)
    (n : Nat) (hn : n ≤ u.rows.length) :
    (concatTables a b).rows
      = a.rows.map (alignRow (unionCols a.cols b.cols) a.cols)
        ++ b.rows.map (alignRow (unionCols a.cols b.cols) b.cols)
  ∧ (concatTables a b).rows.length = a.rows.length + b.rows.length
  ∧ (encodeTable cats u).rows = u.rows.map (encodeRowF u cats)
  ∧ (encodeTable cats u).rows.length = u.rows.length
  ∧ (encodeTable cats u).index = u.index
  ∧ (encodeTable cats u).cols = u.cols
  ∧ (ilocTake n (encodeTable cats u)).rows
      = (u.rows.take n).map (encodeRowF u cats)
  ∧ (ilocDrop n (encodeTable cats u)).rows
      = (u.rows.drop n).map (encodeRowF u cats)
  ∧ (ilocTake n (encodeTable cats u)).rows.length = n
  ∧ ilocTake n (concatI (ilocTake n (encodeTable cats u))
        (ilocDrop n (encodeTable cats u)))
      = ilocTake n (encodeTable cats u)
  ∧ ilocDrop n (concatI (ilocTake n (encodeTable cats u))
        (ilocDrop n (encodeTable cats u)))
      = ilocDrop n (encodeTable cats u) := by
  refine ⟨rfl, ?_, rfl, ?_, rfl, rfl, ?_, ?_, ?_, ?_, ?_⟩
  · simp [concatTables]
  · simp [encodeTable]
  · simp [ilocTake, encodeTable, List.map_take]
  · simp [ilocDrop, encodeTable, List.map_drop]
  · simp only [ilocTake, encodeTable]
    rw [List.length_take, List.length_map]
    omega
  · simp [ilocTake, ilocDrop, concatI, List.take_append_drop]
  · simp [ilocTake, ilocDrop, concatI, List.take_append_drop]

/-- Witness for C1: a two-row training table and one-row evaluation
table, unified, encoded and split at the training row count. -/
theorem unify_encode_split_witness :
    (concatTables
        ⟨["agency_name"], [[some (Val.str "A")], [some (Val.str "B")]]⟩
        ⟨["agency_name"], [[some (Val.str "A")]]⟩).rows
      = [[some (Val.str "A")], [some (Val.str "B")]].map
          (alignRow (unionCols ["agency_name"] ["agency_name"])
            ["agency_name"])
        ++ [[some (Val.str "A")]].map
          (alignRow (unionCols ["agency_name"] ["agency_name"])
            ["agency_name"])
    ∧ (ilocTake 2 (encodeTable cat_columns
        ⟨[none, none, none], ["agency_name"],
         [[some (Val.str "A")], [some (Val.str "B")],
          [some (Val.str "A")]]⟩)).rows.length = 2 :=
  ⟨(unify_encode_split
      ⟨["agency_name"], [[some (Val.str "A")], [some (Val.str "B")]]⟩
      ⟨["agency_name"], [[some (Val.str "A")]]⟩
      ⟨[none, none, none], ["agency_name"],
       [[some (Val.str "A")], [some (Val.str "B")], [some (Val.str "A")]]⟩
      cat_columns 2 (by decide)).1,
   (unify_encode_split
      ⟨["agency_name"], [[some (Val.str "A")], [some (Val.str "B")]]⟩
      ⟨["agency_name"], [[some (Val.str "A")]]⟩
      ⟨[none, none, none], ["agency_name"],
       [[some (Val.str "A")], [some (Val.str "B")], [some (Val.str "A")]]⟩
      cat_columns 2 (by decide)).2.2.2.2.2.2.2.2.1⟩

/-- C8: the training label series is the compliance column of the
filtered training table, taken before any column is dropped; it has
exactly the same length and row order as the training-features table the
splitter produces — the i-th label is the outcome of the filtered row
from which the i-th training-feature row is derived. -/
theorem label_feature_alignment (tr te : Table) (tr1 tr2 df1 : Table)
    (dfi : ITable) (out : PipeOut)
    (h1 : filterCompliance tr = Except.ok tr1)
    (h2 : tr1.dropCols train_drop = Except.ok tr2)
    (h3 : (concatTables tr2 te).dropCols common_drop = Except.ok df1)
    (h4 : df1.setIndex "ticket_id" = Except.ok dfi)
    (h5 : pipeline tr te = Except.ok out) :
    out.y_train = getCol tr1 "compliance"
  ∧ out.y_train.length = tr1.rows.length
  ∧ out.X_train.rows
      = ((((tr1.rows.map (dropRow tr1.cols train_drop)).map
            (alignRow (unionCols tr2.cols te.cols) tr2.cols)).map
            (dropRow (concatTables tr2 te).cols common_drop)).map
            (dropRow df1.cols ["ticket_id"])).map
            (encodeRowF dfi cat_columns)
  ∧ out.X_train.rows.length = tr1.rows.length
  ∧ (∃ j : Nat, findPos "compliance" tr.cols = some j
      ∧ ∀ i : Nat, out.y_train.get? i
          = (tr1.rows.get? i).map (fun r => r.getD j none)) := by
  have hu : unifiedIndexed tr te = Except.ok dfi := by
    unfold unifiedIndexed
    rw [h1]
    show (tr1.dropCols train_drop >>= fun tr2 =>
        ((concatTables tr2 te).dropCols common_drop >>= fun df1 =>
          df1.setIndex "ticket_id")) = Except.ok dfi
    rw [h2]
    show ((concatTables tr2 te).dropCols common_drop >>= fun df1 =>
        df1.setIndex "ticket_id") = Except.ok dfi
    rw [h3]
    show df1.setIndex "ticket_id" = Except.ok dfi
    exact h4
  unfold pipeline at h5
  rw [h1] at h5
  have h5b : (unifiedIndexed tr te >>= fun dfi =>
      Except.ok ⟨ilocTake tr1.rows.length (encodeTable cat_columns dfi),
        getCol tr1 "compliance",
        ilocDrop tr1.rows.length (encodeTable cat_columns dfi)⟩)
      = Except.ok out := h5
  rw [hu] at h5b
  have h5c : (Except.ok
      (⟨ilocTake tr1.rows.length (encodeTable cat_columns dfi),
        getCol tr1 "compliance",
        ilocDrop tr1.rows.length (encodeTable cat_columns dfi)⟩ : PipeOut)
      : Except String PipeOut) = Except.ok out := h5b
  have hout : out
      = ⟨ilocTake tr1.rows.length (encodeTable cat_columns dfi),
         getCol tr1 "compliance",
         ilocDrop tr1.rows.length (encodeTable cat_columns dfi)⟩ :=
    (Except.ok.inj h5c).symm
  obtain ⟨j, hfp, htr1⟩ :
      ∃ j, findPos "compliance" tr.cols = some j
        ∧ tr1 = ⟨tr.cols, tr.rows.filter
            (fun r => definedOutcome (r.getD j none))⟩ := by
    cases hfp : findPos "compliance" tr.cols with
    | none =>
      unfold filterCompliance at h1
      rw [hfp] at h1
      exact Except.noConfusion h1
    | some j =>
      unfold filterCompliance at h1
      rw [hfp] at h1
      exact ⟨j, rfl, (Except.ok.inj h1).symm⟩
  have hcols1 : tr1.cols = tr.cols := by rw [htr1]
  have hcomp1 : findPos "compliance" tr1.cols = some j := by
    rw [hcols1]
    exact hfp
  have htr2rows : tr2.rows = tr1.rows.map (dropRow tr1.cols train_drop) := by
    by_cases hall : ∀ n ∈ train_drop, n ∈ tr1.cols
    · simp only [Table.dropCols, dif_pos hall] at h2
      rw [← Except.ok.inj h2]
    · simp only [Table.dropCols, dif_neg hall] at h2
      exact Except.noConfusion h2
  have hdf1rows : df1.rows = (concatTables tr2 te).rows.map
      (dropRow (concatTables tr2 te).cols common_drop) := by
    by_cases hall : ∀ n ∈ common_drop, n ∈ (concatTables tr2 te).cols
    · simp only [Table.dropCols, dif_pos hall] at h3
      rw [← Except.ok.inj h3]
    · simp only [Table.dropCols, dif_neg hall] at h3
      exact Except.noConfusion h3
  have hdfirows : dfi.rows = df1.rows.map (dropRow df1.cols ["ticket_id"]) := by
    cases hfp4 : findPos "ticket_id" df1.cols with
    | none =>
      unfold Table.setIndex at h4
      rw [hfp4] at h4
      exact Except.noConfusion h4
    | some k =>
      unfold Table.setIndex at h4
      rw [hfp4] at h4
      rw [← Except.ok.inj h4]
  have hy : out.y_train = tr1.rows.map (fun r => r.getD j none) := by
    rw [hout]
    show getCol tr1 "compliance" = _
    simp [getCol, hcomp1]
  have hXrows : out.X_train.rows
      = ((((tr1.rows.map (dropRow tr1.cols train_drop)).map
            (alignRow (unionCols tr2.cols te.cols) tr2.cols)).map
            (dropRow (concatTables tr2 te).cols common_drop)).map
            (dropRow df1.cols ["ticket_id"])).map
            (encodeRowF dfi cat_columns) := by
    rw [hout]
    show ((dfi.rows.map (encodeRowF dfi cat_columns)).take tr1.rows.length) = _
    rw [hdfirows, hdf1rows]
    have hconcatRows : (concatTables tr2 te).rows
        = tr2.rows.map (alignRow (unionCols tr2.cols te.cols) tr2.cols)
          ++ te.rows.map (alignRow (unionCols tr2.cols te.cols) te.cols) := rfl
    rw [hconcatRows, htr2rows, List.map_append, List.map_append,
      List.map_append]
    exact List.take_left' (by simp)
  refine ⟨hout ▸ rfl, ?_, hXrows, ?_, ⟨j, hfp, ?_⟩⟩
  · rw [hy, List.length_map]
  · rw [hXrows]
    simp
  · intro i
    rw [hy, List.get?_map]

/-- Witness for C8: on the concrete tables, the label series is the
compliance column of the filtered training table and matches the
training-features row count. -/
theorem label_feature_alignment_witness :
    outW.y_train = getCol tr1W "compliance"
    ∧ outW.y_train.length = tr1W.rows.length
    ∧ outW.X_train.rows.length = tr1W.rows.length :=
  ⟨(label_feature_alignment trW teW tr1W tr2W df1W dfiW outW
      rfl rfl rfl rfl rfl).1,
   (label_feature_alignment trW teW tr1W tr2W df1W dfiW outW
      rfl rfl rfl rfl rfl).2.1,
   (label_feature_alignment trW teW tr1W tr2W df1W dfiW outW
      rfl rfl rfl rfl rfl).2.2.2.1⟩

end Blight

